import Mathlib

/-!
Verification development for the layered Byzantine-tolerant broadcast stack
(Dolev reliable communication, Bracha reliable broadcast, causal-order
broadcast).  Each definition is a shallow embedding of the corresponding
Python function in `cs4545/implementation/`; side effects (point-to-point
sends, upcalls, log lines) are made explicit as returned event lists.
-/

namespace DistAlg

/-! ## RCO layer — `rco_algorithm.py`

The RCO engine keeps a vector clock, a pending set of undelivered messages
and a delivered set, all process-local.  `rb_broadcast` in the source file
is a placeholder (`pass`); everything else below is translated line by line
from `RCOAlgorithm`.
-/

/-- Message type `RCOMessage` (msg_id 6): sender id, content, vector-clock tag. -/
structure RCOMessage where
  senderId : Nat
  content : String
  vectorClock : List Nat
deriving DecidableEq

/-- An element of `self.pending`: the `key` of an `RCOMessage`,
i.e. `(sender_id, content, vector_clock)`. -/
abbrev PendingItem := Nat × String × List Nat

/-- Process-local RCO state: `self.vector_clock`, `self.pending`,
`self.rco_delivered`.  The Python sets are modelled as duplicate-free lists
whose order is the (deterministic but unspecified) scan order. -/
structure RcoState where
  vectorClock : List Nat
  pending : List PendingItem
  rcoDelivered : List (Nat × String)
deriving DecidableEq

/-- Observable events of the RCO layer: the `rco_deliver` upcall and the
hand-off of a message to `rb_broadcast`. -/
inductive REff where
  | rcoDeliverUp (senderId : Nat) (content : String)
  | rbBroadcastEv (m : RCOMessage)
deriving DecidableEq

/-- The guard of `deliver_pending`:
`all(self.vector_clock[i] >= msg_vector_clock[i] for i in range(len(self.vector_clock)))`. -/
def canDeliver (vc : List Nat) (tag : List Nat) : Bool :=
  (List.range vc.length).all (fun i => decide (tag.getD i 0 ≤ vc.getD i 0))

/-- One scan of `for pending_item in list(self.pending)`: return the first
item satisfying `can_deliver` together with the pending list with that item
removed, or `none` when no item qualifies. -/
def scanPending (vc : List Nat) : List PendingItem → Option (PendingItem × List PendingItem)
  | [] => none
  | p :: rest =>
    if canDeliver vc p.2.2 then some (p, rest)
    else
      match scanPending vc rest with
      | none => none
      | some (q, rem) => some (q, p :: rem)

theorem scanPending_length {vc : List Nat} :
    ∀ {l : List PendingItem} {p rem}, scanPending vc l = some (p, rem) →
      rem.length + 1 = l.length := by
  intro l
  induction l with
  | nil => intro p rem h; simp [scanPending] at h
  | cons a tl ih =>
    intro p rem h
    simp only [scanPending] at h
    split at h
    · cases h
      rfl
    · cases hm : scanPending vc tl with
      | none => rw [hm] at h; cases h
      | some pr =>
        rw [hm] at h
        cases h
        simp [← ih hm]

theorem scanPending_mem {vc : List Nat} :
    ∀ {l : List PendingItem} {p rem}, scanPending vc l = some (p, rem) → p ∈ l := by
  intro l
  induction l with
  | nil => intro p rem h; simp [scanPending] at h
  | cons a tl ih =>
    intro p rem h
    simp only [scanPending] at h
    split at h
    · cases h
      exact List.mem_cons_self a tl
    · cases hm : scanPending vc tl with
      | none => rw [hm] at h; cases h
      | some pr =>
        rw [hm] at h
        cases h
        exact List.mem_cons_of_mem a (ih hm)

/-- The body of the `while delivered_any` loop of `deliver_pending`,
iterated with an explicit bound on the number of passes.  Each pass scans
`pending` for a message whose tag is dominated by the local vector clock;
the first such message is delivered (removed from `pending`,
`rco_deliver` upcalled, `VC[sender]` incremented) and the loop restarts;
a pass that finds nothing ends the loop.  The returned event list records
the `rco_deliver` upcalls in order.  Note that the source never touches
`rco_delivered` here. -/
def deliverPendingFuel : Nat → RcoState → RcoState × List REff
  | 0, st => (st, [])
  | fuel + 1, st =>
    match scanPending st.vectorClock st.pending with
    | none => (st, [])
    | some (p, rem) =>
      let st' : RcoState :=
        { vectorClock := st.vectorClock.set p.1 (st.vectorClock.getD p.1 0 + 1)
          pending := rem
          rcoDelivered := st.rcoDelivered }
      let r := deliverPendingFuel fuel st'
      (r.1, REff.rcoDeliverUp p.1 p.2.1 :: r.2)

/-- Function `deliver_pending`: run the loop with enough passes for every pending
element to be delivered plus one final (empty) scan.  The theorem
`deliverPending_terminates` shows the bound is exact: allowing any larger
number of passes changes nothing, which is the termination argument for
the unbounded `while` loop of the source. -/
def deliverPending (st : RcoState) : RcoState × List REff :=
  deliverPendingFuel (st.pending.length + 1) st

/-- Handler `rb_deliver`: if the sender is not self, add the message key to
`pending` (Python set add: no duplicate insertion) and run
`deliver_pending`. -/
def rbDeliver (nodeId : Nat) (st : RcoState) (m : RCOMessage) : RcoState × List REff :=
  if m.senderId ≠ nodeId then
    let key : PendingItem := (m.senderId, m.content, m.vectorClock)
    let st' : RcoState :=
      { st with pending := if key ∈ st.pending then st.pending else st.pending ++ [key] }
    deliverPending st'
  else
    (st, [])

/-- Modelled from the spec: the source body of `RCOAlgorithm.rb_broadcast`
is a placeholder (`pass`); per the spec the layered production version
reliably broadcasts the RCO message through the Bracha layer
(`brb_broadcast((self, c, tag))`) so that other processes receive it.  We
model that hand-off as an emitted `rbBroadcastEv` event. -/
def rbBroadcast (m : RCOMessage) : List REff :=
  [REff.rbBroadcastEv m]

/-- Procedure `rco_broadcast`: upcall `rco_deliver(self, c)` locally, build the
message with a snapshot `tuple(self.vector_clock)` of the vector clock,
hand it to `rb_broadcast`, then increment `VC[self]`. -/
def rcoBroadcast (nodeId : Nat) (st : RcoState) (content : String) : RcoState × List REff :=
  let msg : RCOMessage :=
    { senderId := nodeId, content := content, vectorClock := st.vectorClock }
  ( { st with vectorClock := st.vectorClock.set nodeId (st.vectorClock.getD nodeId 0 + 1) }
  , REff.rcoDeliverUp nodeId content :: rbBroadcast msg )

theorem deliverPendingFuel_spec :
    ∀ (fuel : Nat) (st : RcoState), st.pending.length < fuel →
      (deliverPendingFuel fuel st).2.length ≤ st.pending.length ∧
      (deliverPendingFuel fuel st).1.pending.length + (deliverPendingFuel fuel st).2.length
        = st.pending.length ∧
      scanPending (deliverPendingFuel fuel st).1.vectorClock
        (deliverPendingFuel fuel st).1.pending = none ∧
      (∀ fuel', st.pending.length < fuel' →
        deliverPendingFuel fuel' st = deliverPendingFuel fuel st) := by
  intro fuel
  induction fuel with
  | zero => intro st h; omega
  | succ f ih =>
    intro st h
    cases hscan : scanPending st.vectorClock st.pending with
    | none =>
      have hval : deliverPendingFuel (f + 1) st = (st, []) := by
        simp only [deliverPendingFuel, hscan]
      refine ⟨?_, ?_, ?_, ?_⟩
      · rw [hval]; simp
      · rw [hval]; simp
      · rw [hval]; exact hscan
      · intro fuel' h'
        cases fuel' with
        | zero => omega
        | succ f' =>
          rw [hval]
          simp only [deliverPendingFuel, hscan]
    | some pr =>
      obtain ⟨p, rem⟩ := pr
      have hlen : rem.length + 1 = st.pending.length := scanPending_length hscan
      set st' : RcoState :=
        { vectorClock := st.vectorClock.set p.1 (st.vectorClock.getD p.1 0 + 1)
          pending := rem
          rcoDelivered := st.rcoDelivered } with hst'
      have hplen : st'.pending.length = rem.length := rfl
      have hrem : st'.pending.length < f := by omega
      obtain ⟨ih1, ih2, ih3, ih4⟩ := ih st' hrem
      have hval : deliverPendingFuel (f + 1) st
          = ((deliverPendingFuel f st').1,
             REff.rcoDeliverUp p.1 p.2.1 :: (deliverPendingFuel f st').2) := by
        rw [hst']
        simp only [deliverPendingFuel, hscan]
      refine ⟨?_, ?_, ?_, ?_⟩
      · rw [hval]
        simp only [List.length_cons]
        omega
      · rw [hval]
        simp only [List.length_cons]
        omega
      · rw [hval]
        exact ih3
      · intro fuel' h'
        cases fuel' with
        | zero => omega
        | succ f' =>
          have hf' : st'.pending.length < f' := by omega
          have hval' : deliverPendingFuel (f' + 1) st
              = ((deliverPendingFuel f' st').1,
                 REff.rcoDeliverUp p.1 p.2.1 :: (deliverPendingFuel f' st').2) := by
            rw [hst']
            simp only [deliverPendingFuel, hscan]
          rw [hval', hval, ih4 f' hf']

/-- C10: `deliver_pending` always terminates: it performs at most
`|pending|` deliveries, every delivery removes exactly one element of
`pending`, the final state admits no further delivery (the last scan comes
up empty), and allowing the loop any number of extra passes changes
nothing — i.e. the unbounded `while` loop of the source exits after at
most `|pending|` deliveries plus one final scan.  (`rco_deliver`, the only
handler a delivery invokes, never inserts into `pending`.) -/
theorem deliverPending_terminates (st : RcoState) :
    (deliverPending st).2.length ≤ st.pending.length ∧
    (deliverPending st).1.pending.length + (deliverPending st).2.length
      = st.pending.length ∧
    scanPending (deliverPending st).1.vectorClock (deliverPending st).1.pending = none ∧
    (∀ fuel, st.pending.length < fuel → deliverPendingFuel fuel st = deliverPending st) := by
  have h := deliverPendingFuel_spec (st.pending.length + 1) st (by omega)
  exact ⟨h.1, h.2.1, h.2.2.1, h.2.2.2⟩

/-- C1 fails on the code: `deliver_pending` never records anything in
`rco_delivered` (the dedup check in `rco_deliver` is commented out), so a
message handed up twice by `rb_deliver` is rco-delivered twice.  Starting
from the initial state of a 2-process system, node 0 receives the RCO
message `(1, "m", [0,0])` twice; both calls upcall `rco_deliver(1, "m")`
and `rco_delivered` stays empty throughout. -/
theorem rbDeliver_duplicate_delivery :
    (rbDeliver 0 { vectorClock := [0, 0], pending := [], rcoDelivered := [] }
        { senderId := 1, content := "m", vectorClock := [0, 0] }).2
      = [REff.rcoDeliverUp 1 "m"] ∧
    (rbDeliver 0
        (rbDeliver 0 { vectorClock := [0, 0], pending := [], rcoDelivered := [] }
          { senderId := 1, content := "m", vectorClock := [0, 0] }).1
        { senderId := 1, content := "m", vectorClock := [0, 0] }).2
      = [REff.rcoDeliverUp 1 "m"] ∧
    (rbDeliver 0
        (rbDeliver 0 { vectorClock := [0, 0], pending := [], rcoDelivered := [] }
          { senderId := 1, content := "m", vectorClock := [0, 0] }).1
        { senderId := 1, content := "m", vectorClock := [0, 0] }).1.rcoDelivered
      = [] := by
  decide

/-- The content of claim C2, as a predicate of the broadcasting node, its
state and the message content: `rco_broadcast` emits exactly the local
`rco_deliver(self, c)` upcall followed by the `rb_broadcast` hand-off of
`(self, c, tag)` where `tag` is the vector clock as snapshot before the
increment (hence `tag[self]` is the pre-increment `VC[self]`), and the
final state differs only in `VC[self]`, incremented by exactly one. -/
def RcoBroadcastClaim (nodeId : Nat) (st : RcoState) (content : String) : Prop :=
  (rcoBroadcast nodeId st content).2 =
    [ REff.rcoDeliverUp nodeId content
    , REff.rbBroadcastEv { senderId := nodeId, content := content, vectorClock := st.vectorClock } ] ∧
  (rcoBroadcast nodeId st content).1.vectorClock.getD nodeId 0
    = st.vectorClock.getD nodeId 0 + 1 ∧
  (∀ j, j ≠ nodeId →
    (rcoBroadcast nodeId st content).1.vectorClock.getD j 0 = st.vectorClock.getD j 0) ∧
  (rcoBroadcast nodeId st content).1.pending = st.pending ∧
  (rcoBroadcast nodeId st content).1.rcoDelivered = st.rcoDelivered

/-- C2: `rco_broadcast(c)` upcalls `rco_deliver(self, c)` first, then hands
the message `(self, c, tag)` with `tag` the pre-increment vector-clock
snapshot to the reliable-broadcast layer, and finally increments
`VC[self]` by exactly one, leaving every other component untouched. -/
theorem rcoBroadcast_spec (nodeId : Nat) (st : RcoState) (content : String)
    (h : nodeId < st.vectorClock.length) :
    RcoBroadcastClaim nodeId st content := by
  refine ⟨rfl, ?_, ?_, rfl, rfl⟩
  · simp [rcoBroadcast, List.getD_eq_getElem?_getD, List.getElem?_set_self (h := h)]
  · intro j hj
    simp [rcoBroadcast, List.getD_eq_getElem?_getD, List.getElem?_set_ne (Ne.symm hj)]

theorem rcoBroadcast_spec_witness :
    0 < (RcoState.mk [0, 0] [] []).vectorClock.length ∧
    RcoBroadcastClaim 0 (RcoState.mk [0, 0] [] []) "a" :=
  ⟨by decide, rcoBroadcast_spec 0 (RcoState.mk [0, 0] [] []) "a" (by decide)⟩

/-! ## RC layer — `dolev_algorithm.py`

`DolevAlgorithm` keys its per-message state by `(sender_id, content)`.
`rc_broadcast` and the node-disjoint path test
`_has_f_plus_one_disjoint_paths` are embedded below; point-to-point sends
and the `rc_deliver` upcall are returned as explicit events.
-/

/-- Message type `DolevMessage` (msg_id 4): origin id, content, path of node ids. -/
structure DolevMessage where
  senderId : Nat
  content : String
  path : List Nat
deriving DecidableEq

/-- A Dolev key `(sender_id, content)`. -/
abbrev DKey := Nat × String

/-- The part of the Dolev state that `rc_broadcast` touches:
`self.delivered`, a map from key to bool modelled as the set of keys that
are mapped to `True`. -/
structure DolevState where
  delivered : List DKey
deriving DecidableEq

/-- Observable events of `rc_broadcast`: the fan-out
`_send_message_to_peers(msg, self.get_peers())` and the `rc_deliver`
upcall. -/
inductive DEff where
  | sendAllPeers (m : DolevMessage)
  | rcDeliverUp (senderId : Nat) (content : String)
deriving DecidableEq

/-- Procedure `rc_broadcast`: build the empty-path message, send it to all peers,
mark `delivered[key] = True`, then upcall `rc_deliver(self, content)` —
in that order. -/
def rcBroadcastD (nodeId : Nat) (st : DolevState) (content : String) :
    DolevState × List DEff :=
  let msg : DolevMessage := { senderId := nodeId, content := content, path := [] }
  ( { delivered := if (nodeId, content) ∈ st.delivered then st.delivered
                   else st.delivered ++ [(nodeId, content)] }
  , [DEff.sendAllPeers msg, DEff.rcDeliverUp nodeId content] )

/-- Modelled from the spec: the origin procedure as the spec states it —
deliver locally first, send to the neighbors only afterwards.  Used only
to compare the event order against the code. -/
def specRcBroadcastEvents (nodeId : Nat) (content : String) : List DEff :=
  [ DEff.rcDeliverUp nodeId content
  , DEff.sendAllPeers { senderId := nodeId, content := content, path := [] } ]

/-- C7 fails on the code: at the concrete broadcast `rc_broadcast("hello")`
by node 0, the code's first action is the send to the neighbors and the
local delivery comes second — the reverse of the spec's order. -/
theorem rcBroadcastD_order_counterexample :
    (rcBroadcastD 0 { delivered := [] } "hello").2
      = [ DEff.sendAllPeers { senderId := 0, content := "hello", path := [] }
        , DEff.rcDeliverUp 0 "hello" ] ∧
    (rcBroadcastD 0 { delivered := [] } "hello").2 ≠ specRcBroadcastEvents 0 "hello" ∧
    (rcBroadcastD 0 { delivered := [] } "hello").2.head?
      ≠ some (DEff.rcDeliverUp 0 "hello") := by
  decide

/-- C7 amended: `rc_broadcast(content)` first sends `(self, content, [])`
to every direct neighbor and only afterwards sets
`rc_delivered[(self, content)] := true` and upcalls
`rc_deliver(self, content)`. -/
theorem rcBroadcastD_send_then_deliver (nodeId : Nat) (st : DolevState) (content : String) :
    (rcBroadcastD nodeId st content).2
      = [ DEff.sendAllPeers { senderId := nodeId, content := content, path := [] }
        , DEff.rcDeliverUp nodeId content ] ∧
    (nodeId, content) ∈ (rcBroadcastD nodeId st content).1.delivered := by
  refine ⟨rfl, ?_⟩
  simp only [rcBroadcastD]
  split
  · assumption
  · simp

/-- Emptiness of `set(a) & set(b)` for two lists of node ids. -/
def nodesDisjoint (a b : List Nat) : Bool :=
  a.all (fun x => !(b.contains x))

/-- The greedy selection loop of `_has_f_plus_one_disjoint_paths`:
iterate over the stored paths; admit a path whenever its intermediate
nodes `set(path[:-1])` are disjoint from those of every already-admitted
path; return `True` as soon as `f + 1` paths are admitted. -/
def greedyLoop (f : Nat) (acc : List (List Nat)) : List (List Nat) → Bool
  | [] => false
  | p :: rest =>
    if acc.all (fun sel => nodesDisjoint p.dropLast sel.dropLast) then
      if f + 1 ≤ acc.length + 1 then true
      else greedyLoop f (acc ++ [p]) rest
    else greedyLoop f acc rest

/-- Function `_has_f_plus_one_disjoint_paths`: short-circuit when fewer than
`f + 1` paths are stored, otherwise run the greedy selector.  The
intermediate nodes of a path are `set(path[:-1])`: only the trailing
entry (the delivering neighbor) is excluded — the origin is not. -/
def hasFPlusOneDisjointPaths (f : Nat) (paths : List (List Nat)) : Bool :=
  if paths.length < f + 1 then false else greedyLoop f [] paths

/-- Modelled from the spec: the intermediates of a path exclude the
trailing entry (the delivering neighbor) and the origin. -/
def specIntermediates (origin : Nat) (p : List Nat) : List Nat :=
  p.dropLast.filter (fun x => x ≠ origin)

/-- Modelled from the spec: two paths are node-disjoint when they share no
intermediate node (intermediates per `specIntermediates`). -/
def SpecDisjoint (origin : Nat) (p q : List Nat) : Prop :=
  ∀ x, x ∈ specIntermediates origin p → x ∉ specIntermediates origin q

instance specDisjoint_decidable (origin : Nat) : DecidableRel (SpecDisjoint origin) := by
  intro p q
  unfold SpecDisjoint
  infer_instance

/-- Modelled from the spec: `paths` contains at least `f + 1` pairwise
node-disjoint paths, with intermediates per `specIntermediates`. -/
def SpecHasDisjoint (f origin : Nat) (paths : List (List Nat)) : Prop :=
  ∃ S : List (List Nat), S.Sublist paths ∧ f + 1 ≤ S.length ∧ S.Pairwise (SpecDisjoint origin)

/-- C4 fails on the code: with `f = 1` and origin 9, the two stored paths
`(9,1,5)` and `(9,2,5)` (both relayed by the single neighbor 5) are
node-disjoint under the claim's notion of intermediates — `{1}` and `{2}`
after dropping the trailing neighbor and the origin — yet
`_has_f_plus_one_disjoint_paths` returns `False`, because the code's
intermediate sets `set(path[:-1])` keep the origin 9 in both paths.  So
the process does not deliver even though the claim says it must. -/
theorem hasDisjointPaths_counterexample :
    hasFPlusOneDisjointPaths 1 [[9, 1, 5], [9, 2, 5]] = false ∧
    SpecHasDisjoint 1 9 [[9, 1, 5], [9, 2, 5]] := by
  constructor
  · decide
  · exact ⟨[[9, 1, 5], [9, 2, 5]], List.Sublist.refl _, by decide, by decide⟩

/-- Disjointness of the code's intermediate sets `set(path[:-1])`,
as a proposition. -/
def CodeDisjoint (p q : List Nat) : Prop :=
  ∀ x, x ∈ p.dropLast → x ∉ q.dropLast

theorem nodesDisjoint_iff {a b : List Nat} :
    nodesDisjoint a b = true ↔ ∀ x, x ∈ a → x ∉ b := by
  simp [nodesDisjoint]

theorem codeDisjoint_symm {p q : List Nat} (h : CodeDisjoint p q) : CodeDisjoint q p :=
  fun x hx hx' => h x hx' hx

theorem codeDisjoint_spec {p q : List Nat} (origin : Nat) (h : CodeDisjoint p q) :
    SpecDisjoint origin p q := by
  intro x hx hx'
  exact h x (List.mem_of_mem_filter hx) (List.mem_of_mem_filter hx')

theorem greedyLoop_sound (f : Nat) :
    ∀ (l acc : List (List Nat)), acc.Pairwise CodeDisjoint →
      greedyLoop f acc l = true →
      ∃ S, S.Sublist l ∧ (acc ++ S).Pairwise CodeDisjoint ∧ f + 1 ≤ acc.length + S.length := by
  intro l
  induction l with
  | nil => intro acc _ h; simp [greedyLoop] at h
  | cons p rest ih =>
    intro acc hacc h
    simp only [greedyLoop] at h
    by_cases hadm : acc.all (fun sel => nodesDisjoint p.dropLast sel.dropLast) = true
    · rw [if_pos hadm] at h
      have hdisj : ∀ sel ∈ acc, CodeDisjoint sel p := by
        intro sel hsel
        exact codeDisjoint_symm (nodesDisjoint_iff.mp (by
          have := List.all_eq_true.mp hadm sel hsel
          simpa using this))
      have hpair : (acc ++ [p]).Pairwise CodeDisjoint := by
        rw [List.pairwise_append]
        exact ⟨hacc, List.pairwise_singleton _ _, by
          intro a ha b hb
          rw [List.mem_singleton] at hb
          subst hb
          exact hdisj a ha⟩
      by_cases hthr : f + 1 ≤ acc.length + 1
      · refine ⟨[p], ?_, hpair, by simpa using hthr⟩
        exact List.singleton_sublist.mpr (List.mem_cons_self p rest)
      · rw [if_neg hthr] at h
        obtain ⟨S, hS, hSpair, hSlen⟩ := ih (acc ++ [p]) hpair h
        refine ⟨p :: S, List.Sublist.cons₂ p hS, ?_, ?_⟩
        · simpa [List.append_assoc] using hSpair
        · simp only [List.length_append, List.length_singleton] at hSlen
          simp only [List.length_cons]
          omega
    · rw [if_neg hadm] at h
      obtain ⟨S, hS, hSpair, hSlen⟩ := ih acc hacc h
      exact ⟨S, List.Sublist.cons p hS, hSpair, hSlen⟩

/-- C4 amended: the delivery check is the greedy selector over the stored
paths, with intermediate nodes `set(path[:-1])` — the origin is not
excluded — so it can return `False` even when `f + 1` node-disjoint paths
(in the claim's sense) exist; but whenever it returns `True`, `paths[k]`
really does contain `f + 1` pairwise node-disjoint paths, also under the
claim's notion of intermediates (trailing entry and origin excluded), for
every choice of origin. -/
theorem hasDisjointPaths_sound (f : Nat) (paths : List (List Nat)) (origin : Nat)
    (h : hasFPlusOneDisjointPaths f paths = true) : SpecHasDisjoint f origin paths := by
  unfold hasFPlusOneDisjointPaths at h
  split at h
  · cases h
  · obtain ⟨S, hS, hpair, hlen⟩ := greedyLoop_sound f paths [] (List.Pairwise.nil) h
    refine ⟨S, hS, by simpa using hlen, ?_⟩
    simp only [List.nil_append] at hpair
    exact hpair.imp (fun hpq => codeDisjoint_spec origin hpq)

theorem hasDisjointPaths_sound_witness :
    hasFPlusOneDisjointPaths 1 [[1, 7], [2, 8]] = true ∧
    SpecHasDisjoint 1 0 [[1, 7], [2, 8]] :=
  ⟨by decide, hasDisjointPaths_sound 1 [[1, 7], [2, 8]] 0 (by decide)⟩

/-! ## Deliver log lines — the external log surface

The three deliver sites print, at their respective debug levels:
`DolevAlgorithm.rc_deliver`, `BrachaAlgorithm._brb_deliver`, and
`RCOAlgorithm.rco_deliver`.  The exact f-string of each print statement is
embedded below. -/

/-- The single-quote character, used by the RC and BRB deliver lines. -/
def sq : String := String.singleton (Char.ofNat 39)

/-- Python's `str` of a list of ints, as printed by
`f"... VC={self.vector_clock}"`. -/
def pyListRepr (vc : List Nat) : String :=
  "[" ++ String.intercalate ", " (vc.map toString) ++ "]"

/-- The `[RC-DELIVER]` line of `DolevAlgorithm.rc_deliver` (printed when
`debug_mode >= 1` and the algorithm filter matches). -/
def rcDeliverLine (nodeId senderId : Nat) (content : String) : String :=
  "[RC-DELIVER] Node " ++ toString nodeId ++ ": Delivered message from "
    ++ toString senderId ++ ": " ++ sq ++ content ++ sq

/-- The `[BRB-DELIVER]` line of `BrachaAlgorithm._brb_deliver` (printed
when `debug_mode >= 1` and the algorithm filter matches). -/
def brbDeliverLine (nodeId senderId : Nat) (content : String) : String :=
  "[BRB-DELIVER] Node " ++ toString nodeId ++ ": Delivered message from "
    ++ toString senderId ++ ": " ++ sq ++ content ++ sq

/-- The deliver line of `RCOAlgorithm.rco_deliver` (printed
unconditionally).  Its tag is `[RCO]`. -/
def rcoDeliverLine (nodeId senderId : Nat) (content : String) (vc : List Nat) : String :=
  "[RCO] Node " ++ toString nodeId ++ ": Delivered message from sender "
    ++ toString senderId ++ ": \"" ++ content ++ "\" | VC=" ++ pyListRepr vc

/-- Modelled from the spec: the contracted RC deliver line shape. -/
def specRcDeliverLine (nodeId senderId : Nat) (content : String) : String :=
  "[RC-DELIVER] Node " ++ toString nodeId ++ ": Delivered message from "
    ++ toString senderId ++ ": " ++ sq ++ content ++ sq

/-- Modelled from the spec: the contracted BRB deliver line shape. -/
def specBrbDeliverLine (nodeId senderId : Nat) (content : String) : String :=
  "[BRB-DELIVER] Node " ++ toString nodeId ++ ": Delivered message from "
    ++ toString senderId ++ ": " ++ sq ++ content ++ sq

/-- Modelled from the spec: the contracted RCO deliver line shape, tagged
`[RCO-DELIVER]` (the tag the log-analysis tooling
`tests/a3/analyze_order.py` greps for). -/
def specRcoDeliverLine (nodeId senderId : Nat) (content : String) (vc : List Nat) : String :=
  "[RCO-DELIVER] Node " ++ toString nodeId ++ ": Delivered message from sender "
    ++ toString senderId ++ ": \"" ++ content ++ "\" | VC=" ++ pyListRepr vc

/-- C8: the RC and BRB deliver lines match the contracted shapes exactly,
but the RCO deliver line does not — the code tags it `[RCO]` where the
contract (and the repository's own log-analysis script) demands
`[RCO-DELIVER]`.  Evaluated at the delivery of `(sender 1, "m")` at
node 0 with `VC = [0, 0]`. -/
theorem deliverLine_shapes :
    (∀ n s c, rcDeliverLine n s c = specRcDeliverLine n s c) ∧
    (∀ n s c, brbDeliverLine n s c = specBrbDeliverLine n s c) ∧
    rcoDeliverLine 0 1 "m" [0, 0] ≠ specRcoDeliverLine 0 1 "m" [0, 0] ∧
    rcoDeliverLine 0 1 "m" [0, 0]
      = "[RCO] Node 0: Delivered message from sender 1: \"m\" | VC=[0, 0]" := by
  refine ⟨fun n s c => rfl, fun n s c => rfl, ?_, ?_⟩
  · decide
  · decide

/-! ## BRB layer — `bracha_algorithm.py`

`BrachaAlgorithm` runs the SEND/ECHO/READY state machine on top of the RC
layer.  The per-process state and the handlers `_handle_send`,
`_handle_echo`, `_handle_ready`, `_send_ready`, `_brb_deliver` and the
overridden `rc_deliver` are embedded for a correct process
(`byzantine_behavior == 'none'`); debug prints other than the deliver
lines are elided, and each `rc_broadcast(to_json(...))` is returned as an
explicit event. -/

/-- The msg_type field: `"SEND"`, `"ECHO"` or `"READY"`. -/
inductive MsgType where
  | send
  | echo
  | ready
deriving DecidableEq

/-- Message type `BrachaMessage` (msg_id 5): BRB origin, content, message type. -/
structure BrachaMessage where
  senderId : Nat
  content : String
  msgType : MsgType
deriving DecidableEq

/-- A Bracha key `(sender_id, content)` — `BrachaMessage.key`. -/
abbrev BKey := Nat × String

/-- Accessor `msg.key`. -/
def bKey (m : BrachaMessage) : BKey := (m.senderId, m.content)

/-- Configuration of one process: `self.num_nodes`, `self.f`,
`self.node_id` and the optimization flags read at `__init__`. -/
structure BrachaCfg where
  numNodes : Nat
  f : Nat
  nodeId : Nat
  optEchoAmplification : Bool
  optReducedMessages : Bool
deriving DecidableEq

/-- Per-process Bracha state: `sent_echo`, `sent_ready`,
`bracha_delivered` (maps key → bool, modelled as the set of keys mapped
to `True`) and the `echos`/`readys` maps from key to set of node ids. -/
structure BrachaState where
  sentEcho : List BKey
  sentReady : List BKey
  brachaDelivered : List BKey
  echos : List (BKey × List Nat)
  readys : List (BKey × List Nat)
deriving DecidableEq

/-- The state at `__init__`: everything empty. -/
def initBracha : BrachaState :=
  { sentEcho := [], sentReady := [], brachaDelivered := [], echos := [], readys := [] }

/-- Python `set.add` on a set of node ids. -/
def setInsert (s : List Nat) (v : Nat) : List Nat :=
  if v ∈ s then s else s ++ [v]

/-- Python `dict[key] = True` on a key set. -/
def keyInsert (s : List BKey) (k : BKey) : List BKey :=
  if k ∈ s then s else s ++ [k]

/-- Lookup in a `defaultdict(set)`. -/
def mapGet (m : List (BKey × List Nat)) (k : BKey) : List Nat :=
  match m.find? (fun e => decide (e.1 = k)) with
  | none => []
  | some e => e.2

/-- Insertion `self.echos[k].add(v)` on a `defaultdict(set)`. -/
def mapInsert (m : List (BKey × List Nat)) (k : BKey) (v : Nat) : List (BKey × List Nat) :=
  match m with
  | [] => [(k, [v])]
  | e :: rest => if e.1 = k then (k, setInsert e.2 v) :: rest else e :: mapInsert rest k v

/-- The ECHO threshold `math.ceil((self.num_nodes + self.f + 1) / 2)`. -/
def echoThreshold (numNodes f : Nat) : Nat := (numNodes + f + 1 + 1) / 2

/-- The count `num_echo_nodes = math.ceil((N + f + 1) / 2) + f`. -/
def numEchoNodes (numNodes f : Nat) : Nat := echoThreshold numNodes f + f

/-- The list `[(broadcaster_id + i) % self.num_nodes for i in range(1, self.num_nodes + 1)]`. -/
def nodesAfter (numNodes broadcasterId : Nat) : List Nat :=
  (List.range numNodes).map (fun i => (broadcasterId + i + 1) % numNodes)

/-- Predicate `_should_generate_echo` (optimization MBD.11). -/
def shouldGenerateEcho (cfg : BrachaCfg) (broadcasterId : Nat) : Bool :=
  if cfg.optReducedMessages = false then true
  else decide (cfg.nodeId ∈ (nodesAfter cfg.numNodes broadcasterId).take
    (numEchoNodes cfg.numNodes cfg.f))

/-- Predicate `_should_generate_ready` (optimization MBD.11);
`num_ready_nodes = 2 * f + 1 + f`. -/
def shouldGenerateReady (cfg : BrachaCfg) (broadcasterId : Nat) : Bool :=
  if cfg.optReducedMessages = false then true
  else decide (cfg.nodeId ∈ (nodesAfter cfg.numNodes broadcasterId).take
    (2 * cfg.f + 1 + cfg.f))

/-- Modelled from the spec: the node id lies in the first `k` elements of
the circular sequence `(o+1) mod N, (o+2) mod N, …` after origin `o`. -/
def SpecEligible (numNodes origin k nodeId : Nat) : Prop :=
  ∃ i, 1 ≤ i ∧ i ≤ k ∧ (origin + i) % numNodes = nodeId

theorem mem_take_nodesAfter_iff {numNodes : Nat} (o k id : Nat) (hN : 0 < numNodes)
    (hid : id < numNodes) :
    id ∈ (nodesAfter numNodes o).take k ↔ SpecEligible numNodes o k id := by
  unfold nodesAfter SpecEligible
  rw [← List.map_take, List.take_range]
  simp only [List.mem_map, List.mem_range]
  constructor
  · rintro ⟨j, hj, rfl⟩
    exact ⟨j + 1, by omega, by omega, by rw [Nat.add_comm j 1]; ring_nf⟩
  · rintro ⟨i, hi1, hik, hmod⟩
    refine ⟨(i - 1) % numNodes, ?_, ?_⟩
    · have h1 : (i - 1) % numNodes ≤ i - 1 := Nat.mod_le _ _
      have h2 : (i - 1) % numNodes < numNodes := Nat.mod_lt _ hN
      omega
    · rw [← hmod]
      have : o + (i - 1) % numNodes + 1 = o + 1 + (i - 1) % numNodes := by omega
      rw [this, Nat.add_mod_mod]
      congr 1
      omega

/-- The content of claim C5, as a predicate of the configuration and the
origin: with MBD.11 enabled, ECHO-eligibility is membership in the first
`⌈(N+f+1)/2⌉ + f` elements of the circular suffix after the origin and
READY-eligibility membership in its first `3f+1` elements; with MBD.11
disabled every node is eligible for both. -/
def EligibilityClaim (cfg : BrachaCfg) (origin : Nat) : Prop :=
  (cfg.optReducedMessages = true →
    (shouldGenerateEcho cfg origin = true ↔
      SpecEligible cfg.numNodes origin (numEchoNodes cfg.numNodes cfg.f) cfg.nodeId) ∧
    (shouldGenerateReady cfg origin = true ↔
      SpecEligible cfg.numNodes origin (3 * cfg.f + 1) cfg.nodeId)) ∧
  (cfg.optReducedMessages = false →
    shouldGenerateEcho cfg origin = true ∧ shouldGenerateReady cfg origin = true)

/-- C5: MBD.11 eligibility is exactly the circular-suffix membership the
spec describes (`2f+1+f = 3f+1` for READY), and with the option disabled
every node is eligible. -/
theorem shouldGenerate_eligibility (cfg : BrachaCfg) (origin : Nat)
    (hN : 0 < cfg.numNodes) (hid : cfg.nodeId < cfg.numNodes) :
    EligibilityClaim cfg origin := by
  constructor
  · intro hred
    constructor
    · rw [shouldGenerateEcho, if_neg (by simp [hred]), decide_eq_true_eq]
      exact mem_take_nodesAfter_iff origin _ cfg.nodeId hN hid
    · rw [shouldGenerateReady, if_neg (by simp [hred]), decide_eq_true_eq]
      have h3 : 2 * cfg.f + 1 + cfg.f = 3 * cfg.f + 1 := by omega
      rw [h3]
      exact mem_take_nodesAfter_iff origin _ cfg.nodeId hN hid
  · intro hred
    constructor
    · simp [shouldGenerateEcho, hred]
    · simp [shouldGenerateReady, hred]

theorem shouldGenerate_eligibility_witness :
    0 < (BrachaCfg.mk 4 1 2 false true).numNodes ∧
    (BrachaCfg.mk 4 1 2 false true).nodeId < (BrachaCfg.mk 4 1 2 false true).numNodes ∧
    EligibilityClaim (BrachaCfg.mk 4 1 2 false true) 0 :=
  ⟨by decide, by decide, shouldGenerate_eligibility (BrachaCfg.mk 4 1 2 false true) 0
    (by decide) (by decide)⟩

/-- Observable events of the BRB handlers: an
`rc_broadcast(msg.to_json())` call, the `_brb_deliver` upcall, and a
fall-through to the Dolev `rc_deliver`. -/
inductive Eff where
  | rcBroadcastEv (m : BrachaMessage)
  | brbDeliverUp (senderId : Nat) (content : String)
  | parentRcDeliver (senderId : Nat) (content : String)
deriving DecidableEq

/-- An RC-delivered content blob: either the JSON serialization of a
Bracha message or any other string.  `to_json` is injective, so the
serialized form is modelled by the `bracha` constructor and every
non-parsing payload by `raw`. -/
inductive Blob where
  | bracha (m : BrachaMessage)
  | raw (s : String)
deriving DecidableEq

/-- Parser `BrachaMessage.from_json`: succeeds exactly on serialized Bracha
messages (`json.loads` raises on anything else). -/
def fromJson? : Blob → Option BrachaMessage
  | Blob.bracha m => some m
  | Blob.raw _ => none

/-- Handler `_handle_send`: if ECHO-eligible (MBD.11) and no ECHO was sent for the
key yet, mark `sent_echo` and `rc_broadcast` the ECHO. -/
def handleSend (cfg : BrachaCfg) (st : BrachaState) (msg : BrachaMessage) :
    BrachaState × List Eff :=
  if shouldGenerateEcho cfg msg.senderId = false then (st, [])
  else if bKey msg ∈ st.sentEcho then (st, [])
  else
    ( { st with sentEcho := keyInsert st.sentEcho (bKey msg) }
    , [Eff.rcBroadcastEv { senderId := msg.senderId, content := msg.content, msgType := MsgType.echo }] )

/-- Helper `_send_ready`: mark `sent_ready[key] = True` and `rc_broadcast` the
READY built from the message's key. -/
def sendReady (st : BrachaState) (msg : BrachaMessage) : BrachaState × List Eff :=
  ( { st with sentReady := keyInsert st.sentReady (bKey msg) }
  , [Eff.rcBroadcastEv { senderId := msg.senderId, content := msg.content, msgType := MsgType.ready }] )

/-- Method `_brb_deliver`: set `bracha_delivered[key] = True`; the upcall is the
delivery itself (its log line is `brbDeliverLine`). -/
def brbDeliver (st : BrachaState) (msg : BrachaMessage) : BrachaState × List Eff :=
  ( { st with brachaDelivered := keyInsert st.brachaDelivered (bKey msg) }
  , [Eff.brbDeliverUp msg.senderId msg.content] )

/-- Handler `_handle_echo`: record the ECHO; with echo amplification, send our own
ECHO upon `f+1` ECHOs; upon the ECHO threshold (and not `sent_ready`, and
READY-eligible) send READY. -/
def handleEcho (cfg : BrachaCfg) (st : BrachaState) (msg : BrachaMessage) (senderId : Nat) :
    BrachaState × List Eff :=
  let k := bKey msg
  let st1 : BrachaState := { st with echos := mapInsert st.echos k senderId }
  let amp :=
    if cfg.optEchoAmplification = true ∧ cfg.f + 1 ≤ (mapGet st1.echos k).length ∧
        k ∉ st1.sentEcho ∧ shouldGenerateEcho cfg msg.senderId = true then
      ( { st1 with sentEcho := keyInsert st1.sentEcho k }
      , [Eff.rcBroadcastEv { senderId := msg.senderId, content := msg.content, msgType := MsgType.echo }] )
    else (st1, ([] : List Eff))
  if echoThreshold cfg.numNodes cfg.f ≤ (mapGet amp.1.echos k).length ∧
      k ∉ amp.1.sentReady ∧ shouldGenerateReady cfg msg.senderId = true then
    let r := sendReady amp.1 msg
    (r.1, amp.2 ++ r.2)
  else (amp.1, amp.2)

/-- Handler `_handle_ready`: record the READY; with echo amplification either send
READY upon `f+1` READYs (marking `sent_echo` too) or send a catch-up ECHO,
otherwise send READY upon `f+1` READYs; upon `2f+1` READYs (and not yet
delivered) deliver. -/
def handleReady (cfg : BrachaCfg) (st : BrachaState) (msg : BrachaMessage) (senderId : Nat) :
    BrachaState × List Eff :=
  let k := bKey msg
  let st1 : BrachaState := { st with readys := mapInsert st.readys k senderId }
  let phase :=
    if cfg.optEchoAmplification = true then
      if (cfg.f + 1 ≤ (mapGet st1.readys k).length ∧ k ∉ st1.sentReady) ∧
          shouldGenerateReady cfg msg.senderId = true then
        sendReady { st1 with sentEcho := keyInsert st1.sentEcho k } msg
      else if k ∉ st1.sentEcho ∧ shouldGenerateEcho cfg msg.senderId = true then
        ( { st1 with sentEcho := keyInsert st1.sentEcho k }
        , [Eff.rcBroadcastEv { senderId := msg.senderId, content := msg.content, msgType := MsgType.echo }] )
      else (st1, ([] : List Eff))
    else
      if cfg.f + 1 ≤ (mapGet st1.readys k).length ∧ k ∉ st1.sentReady ∧
          shouldGenerateReady cfg msg.senderId = true then
        sendReady st1 msg
      else (st1, ([] : List Eff))
  if 2 * cfg.f + 1 ≤ (mapGet phase.1.readys k).length ∧ k ∉ phase.1.brachaDelivered then
    let r := brbDeliver phase.1 msg
    (r.1, phase.2 ++ r.2)
  else (phase.1, phase.2)

/-- The overridden `rc_deliver` of the BRB layer, for a correct process
(`byzantine_behavior == 'none'`): try to parse the RC-delivered content;
on failure fall through to the Dolev `rc_deliver` and return; on success
dispatch on `msg_type`. -/
def rcDeliverB (cfg : BrachaCfg) (st : BrachaState) (senderId : Nat) (b : Blob) :
    BrachaState × List Eff :=
  match b with
  | Blob.raw s => (st, [Eff.parentRcDeliver senderId s])
  | Blob.bracha m =>
    match m.msgType with
    | MsgType.send => handleSend cfg st m
    | MsgType.echo => handleEcho cfg st m senderId
    | MsgType.ready => handleReady cfg st m senderId

/-- C9: on an RC-delivered content that does not parse as a Bracha
message, `rc_deliver` falls through to the parent Dolev deliver action
with the sender and content unchanged, the handler returns normally (it is
a total function — no exception propagates), and the Bracha state
(`sent_echo`, `sent_ready`, `echos`, `readys`, `bracha_delivered`) is
untouched. -/
theorem rcDeliverB_malformed_fallthrough (cfg : BrachaCfg) (st : BrachaState)
    (senderId : Nat) (s : String) :
    fromJson? (Blob.raw s) = none ∧
    rcDeliverB cfg st senderId (Blob.raw s) = (st, [Eff.parentRcDeliver senderId s]) :=
  ⟨rfl, rfl⟩

/-- C3 fails on the code when echo amplification is enabled: node 2 of a
4-process system (`f = 1`, MBD.11 off) handles a first READY for
`(0, "m")` from sender 1; it cannot yet send READY (1 < f+1 = 2 READYs)
and has not sent an ECHO, so the handler `rc_broadcast`s an ECHO — the
claim says the handler never sends an ECHO. -/
theorem handleReady_amplification_sends_echo :
    (handleReady (BrachaCfg.mk 4 1 2 true false) initBracha
        (BrachaMessage.mk 0 "m" MsgType.ready) 1).2
      = [Eff.rcBroadcastEv (BrachaMessage.mk 0 "m" MsgType.echo)] := by
  decide

theorem mapGet_nil (k : BKey) : mapGet [] k = [] := rfl

theorem mapGet_cons_self (k : BKey) (vs : List Nat) (m : List (BKey × List Nat)) :
    mapGet ((k, vs) :: m) k = vs := by
  simp [mapGet, List.find?_cons_of_pos]

theorem mapGet_cons_ne (k1 k : BKey) (vs : List Nat) (m : List (BKey × List Nat))
    (h : k1 ≠ k) : mapGet ((k1, vs) :: m) k = mapGet m k := by
  simp only [mapGet]
  rw [List.find?_cons_of_neg]
  simpa using h

theorem mapGet_mapInsert_self (m : List (BKey × List Nat)) (k : BKey) (v : Nat) :
    mapGet (mapInsert m k v) k = setInsert (mapGet m k) v := by
  induction m with
  | nil => simp [mapInsert, mapGet_cons_self, mapGet_nil, setInsert]
  | cons e rest ih =>
    obtain ⟨k1, vs⟩ := e
    by_cases he : k1 = k
    · subst he
      simp [mapInsert, mapGet_cons_self]
    · rw [mapInsert, if_neg he, mapGet_cons_ne k1 k vs _ he, mapGet_cons_ne k1 k vs _ he]
      exact ih

theorem mapGet_mapInsert_ne (m : List (BKey × List Nat)) (k k' : BKey) (v : Nat)
    (h : k' ≠ k) : mapGet (mapInsert m k v) k' = mapGet m k' := by
  induction m with
  | nil =>
    rw [mapInsert, mapGet_cons_ne k k' [v] _ (Ne.symm h)]
  | cons e rest ih =>
    obtain ⟨k1, vs⟩ := e
    by_cases he : k1 = k
    · subst he
      rw [mapInsert, if_pos rfl, mapGet_cons_ne _ _ _ _ (Ne.symm h),
        mapGet_cons_ne _ _ _ _ (Ne.symm h)]
    · by_cases he' : k1 = k'
      · subst he'
        rw [mapInsert, if_neg he, mapGet_cons_self, mapGet_cons_self]
      · rw [mapInsert, if_neg he, mapGet_cons_ne _ _ _ _ he', mapGet_cons_ne _ _ _ _ he']
        exact ih

theorem setInsert_length_le (s : List Nat) (v : Nat) :
    s.length ≤ (setInsert s v).length := by
  unfold setInsert
  split
  · exact Nat.le_refl _
  · simp

theorem keyInsert_mem (s : List BKey) (k k' : BKey) :
    k' ∈ keyInsert s k ↔ k' ∈ s ∨ k' = k := by
  unfold keyInsert
  split
  · constructor
    · exact Or.inl
    · rintro (h | rfl)
      · exact h
      · assumption
  · simp

/-- The content of claim C3 for one `_handle_ready` invocation: the RC
sender is recorded in `readys[(o,c)]`; a READY is sent iff the recorded
set has reached `f+1`, no READY was sent for the key, and
READY-eligibility holds; the key is marked delivered and `brb_deliver`
upcalled iff the recorded set has reached `2f+1` and the key was not yet
delivered; and no message other than that READY is emitted (in
particular, no ECHO). -/
def HandleReadyClaim (cfg : BrachaCfg) (st : BrachaState) (msg : BrachaMessage)
    (senderId : Nat) : Prop :=
  mapGet (handleReady cfg st msg senderId).1.readys (bKey msg)
      = setInsert (mapGet st.readys (bKey msg)) senderId ∧
  (Eff.rcBroadcastEv (BrachaMessage.mk msg.senderId msg.content MsgType.ready)
      ∈ (handleReady cfg st msg senderId).2 ↔
    (cfg.f + 1 ≤ (setInsert (mapGet st.readys (bKey msg)) senderId).length ∧
     bKey msg ∉ st.sentReady ∧ shouldGenerateReady cfg msg.senderId = true)) ∧
  (Eff.brbDeliverUp msg.senderId msg.content ∈ (handleReady cfg st msg senderId).2 ↔
    (2 * cfg.f + 1 ≤ (setInsert (mapGet st.readys (bKey msg)) senderId).length ∧
     bKey msg ∉ st.brachaDelivered)) ∧
  (bKey msg ∈ (handleReady cfg st msg senderId).1.brachaDelivered ↔
    (bKey msg ∈ st.brachaDelivered ∨
     2 * cfg.f + 1 ≤ (setInsert (mapGet st.readys (bKey msg)) senderId).length)) ∧
  (∀ m : BrachaMessage, Eff.rcBroadcastEv m ∈ (handleReady cfg st msg senderId).2 →
    m = BrachaMessage.mk msg.senderId msg.content MsgType.ready)

/-- C3 amended: without echo amplification, `_handle_ready` behaves
exactly as the claim states. -/
theorem handleReady_no_amplification (cfg : BrachaCfg) (st : BrachaState)
    (msg : BrachaMessage) (senderId : Nat)
    (hamp : cfg.optEchoAmplification = false) :
    HandleReadyClaim cfg st msg senderId := by
  by_cases hC1 : cfg.f + 1 ≤ (setInsert (mapGet st.readys (bKey msg)) senderId).length ∧
      bKey msg ∉ st.sentReady ∧ shouldGenerateReady cfg msg.senderId = true <;>
  by_cases hC2 : 2 * cfg.f + 1 ≤ (setInsert (mapGet st.readys (bKey msg)) senderId).length ∧
      bKey msg ∉ st.brachaDelivered <;>
  · refine ⟨?_, ?_, ?_, ?_, ?_⟩ <;>
      simp [HandleReadyClaim, handleReady, sendReady, brbDeliver, mapGet_mapInsert_self,
        keyInsert_mem, hamp, hC1, hC2] <;>
      tauto

theorem handleReady_no_amplification_witness :
    (BrachaCfg.mk 4 1 0 false false).optEchoAmplification = false ∧
    HandleReadyClaim (BrachaCfg.mk 4 1 0 false false) initBracha
      (BrachaMessage.mk 0 "m" MsgType.ready) 1 :=
  ⟨rfl, handleReady_no_amplification (BrachaCfg.mk 4 1 0 false false) initBracha
    (BrachaMessage.mk 0 "m" MsgType.ready) 1 rfl⟩

theorem mapGet_mapInsert_length_le (m : List (BKey × List Nat)) (k' k : BKey) (v : Nat) :
    (mapGet m k').length ≤ (mapGet (mapInsert m k v) k').length := by
  by_cases h : k' = k
  · subst h
    rw [mapGet_mapInsert_self]
    exact setInsert_length_le _ _
  · rw [mapGet_mapInsert_ne _ _ _ _ h]

theorem handleSend_preserves (cfg : BrachaCfg) (st : BrachaState) (m : BrachaMessage) :
    (handleSend cfg st m).1.brachaDelivered = st.brachaDelivered ∧
    (handleSend cfg st m).1.readys = st.readys := by
  unfold handleSend
  split_ifs <;> simp

theorem handleEcho_preserves (cfg : BrachaCfg) (st : BrachaState) (m : BrachaMessage)
    (s : Nat) :
    (handleEcho cfg st m s).1.brachaDelivered = st.brachaDelivered ∧
    (handleEcho cfg st m s).1.readys = st.readys := by
  unfold handleEcho sendReady
  dsimp only
  split_ifs <;> simp

theorem handleReady_readys_eq (cfg : BrachaCfg) (st : BrachaState) (m : BrachaMessage)
    (s : Nat) :
    (handleReady cfg st m s).1.readys = mapInsert st.readys (bKey m) s := by
  unfold handleReady sendReady brbDeliver
  dsimp only
  split_ifs <;> simp

theorem handleReady_delivered_cases (cfg : BrachaCfg) (st : BrachaState)
    (m : BrachaMessage) (s : Nat) :
    (handleReady cfg st m s).1.brachaDelivered = st.brachaDelivered ∨
    ((handleReady cfg st m s).1.brachaDelivered = keyInsert st.brachaDelivered (bKey m) ∧
     2 * cfg.f + 1 ≤ (mapGet (mapInsert st.readys (bKey m) s) (bKey m)).length) := by
  unfold handleReady sendReady brbDeliver
  dsimp only
  split_ifs <;> simp_all

/-- Invariant behind the second half of C6: every delivered key has
at least `2f+1` recorded READYs. -/
def ReadysInv (cfg : BrachaCfg) (st : BrachaState) : Prop :=
  ∀ k, k ∈ st.brachaDelivered → 2 * cfg.f + 1 ≤ (mapGet st.readys k).length

theorem rcDeliverB_inv (cfg : BrachaCfg) (st : BrachaState) (sid : Nat) (b : Blob)
    (hInv : ReadysInv cfg st) : ReadysInv cfg (rcDeliverB cfg st sid b).1 := by
  cases b with
  | raw s => exact hInv
  | bracha m =>
    cases hm : m.msgType with
    | send =>
      intro k hk
      have hp := handleSend_preserves cfg st m
      simp only [rcDeliverB, hm] at hk ⊢
      rw [hp.1] at hk
      rw [hp.2]
      exact hInv k hk
    | echo =>
      intro k hk
      have hp := handleEcho_preserves cfg st m sid
      simp only [rcDeliverB, hm] at hk ⊢
      rw [hp.1] at hk
      rw [hp.2]
      exact hInv k hk
    | ready =>
      intro k hk
      have hr := handleReady_readys_eq cfg st m sid
      simp only [rcDeliverB, hm] at hk ⊢
      rw [hr]
      rcases handleReady_delivered_cases cfg st m sid with hd | ⟨hd, hguard⟩
      · rw [hd] at hk
        exact Nat.le_trans (hInv k hk) (mapGet_mapInsert_length_le _ _ _ _)
      · rw [hd, keyInsert_mem] at hk
        rcases hk with hk | rfl
        · exact Nat.le_trans (hInv k hk) (mapGet_mapInsert_length_le _ _ _ _)
        · exact hguard

/-- Feed a sequence of RC deliveries `(sender, content)` to one correct
process, accumulating its Bracha state. -/
def runNode (cfg : BrachaCfg) (st : BrachaState) : List (Nat × Blob) → BrachaState
  | [] => st
  | e :: rest => runNode cfg (rcDeliverB cfg st e.1 e.2).1 rest

theorem runNode_inv (cfg : BrachaCfg) :
    ∀ (evs : List (Nat × Blob)) (st : BrachaState), ReadysInv cfg st →
      ReadysInv cfg (runNode cfg st evs) := by
  intro evs
  induction evs with
  | nil => intro st h; exact h
  | cons e rest ih =>
    intro st h
    exact ih _ (rcDeliverB_inv cfg st e.1 e.2 h)

/-- C6 amended (the part that holds): whatever sequence of RC deliveries a
correct process handles from its initial state, it has marked a key
`(o, c)` in `bracha_delivered` only if it has recorded READYs for that key
from at least `2f+1` distinct senders. -/
theorem brachaDelivered_needs_readys (cfg : BrachaCfg) (evs : List (Nat × Blob)) (k : BKey)
    (h : k ∈ (runNode cfg initBracha evs).brachaDelivered) :
    2 * cfg.f + 1 ≤ (mapGet (runNode cfg initBracha evs).readys k).length :=
  runNode_inv cfg evs initBracha (fun k hk => by simp [initBracha] at hk) k h

theorem brachaDelivered_needs_readys_witness :
    ((0, "m") : BKey) ∈ (runNode (BrachaCfg.mk 1 0 0 false false) initBracha
      [(5, Blob.bracha (BrachaMessage.mk 0 "m" MsgType.ready))]).brachaDelivered ∧
    2 * (BrachaCfg.mk 1 0 0 false false).f + 1 ≤
      (mapGet (runNode (BrachaCfg.mk 1 0 0 false false) initBracha
        [(5, Blob.bracha (BrachaMessage.mk 0 "m" MsgType.ready))]).readys ((0, "m") : BKey)).length :=
  ⟨by decide, brachaDelivered_needs_readys (BrachaCfg.mk 1 0 0 false false)
    [(5, Blob.bracha (BrachaMessage.mk 0 "m" MsgType.ready))] ((0, "m") : BKey) (by decide)⟩

/-! ### A system-level execution of the BRB layer

A global state holds the Bracha state of every (correct) process, the log
of all `rc_broadcast`s performed so far (as pairs of RC origin and
content), and the log of RC deliveries already performed.  A step is
either an application-level `brb_broadcast` at some process (as `on_start`
performs — with default options it `rc_broadcast`s the serialized SEND)
or the RC delivery, at some process, of a previously broadcast content:
RC delivers each broadcast content to each process (including its origin,
which `rc_broadcast` delivers locally) at most once, in any order.  All
processes are correct and run with default options. -/

structure GState where
  nodes : List BrachaState
  sent : List (Nat × Blob)
  recvd : List (Nat × Nat × Blob)
deriving DecidableEq

inductive GEv where
  | bcast (i : Nat) (content : String)
  | recv (r s : Nat) (b : Blob)
deriving DecidableEq

/-- The `rc_broadcast` calls a handler performed, tagged with the RC
origin, as contents available for RC delivery. -/
def outsToSent (i : Nat) (effs : List Eff) : List (Nat × Blob) :=
  effs.filterMap (fun e => match e with
    | Eff.rcBroadcastEv m => some (i, Blob.bracha m)
    | _ => none)

/-- Configuration of process `i` in an `n`-process system with fault
parameter `f` and default options. -/
def gcfg (n f i : Nat) : BrachaCfg := BrachaCfg.mk n f i false false

/-- Procedure `brb_broadcast` at a correct process with default options
(`opt_single_hop_send` off, behavior `none`): `rc_broadcast` the
serialized SEND; the Bracha state is untouched (the origin's own handling
of the SEND happens when RC delivers it back locally). -/
def brbBroadcast (cfg : BrachaCfg) (st : BrachaState) (content : String) :
    BrachaState × List Eff :=
  (st, [Eff.rcBroadcastEv (BrachaMessage.mk cfg.nodeId content MsgType.send)])

/-- One global step; `none` when the event is not enabled (unknown
process, content never broadcast by the claimed RC origin, or duplicate
delivery). -/
def gstep (n f : Nat) (g : GState) : GEv → Option GState
  | GEv.bcast i c =>
    if h : i < g.nodes.length then
      let r := brbBroadcast (gcfg n f i) (g.nodes.get ⟨i, h⟩) c
      some { nodes := g.nodes.set i r.1
           , sent := g.sent ++ outsToSent i r.2
           , recvd := g.recvd }
    else none
  | GEv.recv r s b =>
    if h : r < g.nodes.length ∧ (s, b) ∈ g.sent ∧ (r, s, b) ∉ g.recvd then
      let q := rcDeliverB (gcfg n f r) (g.nodes.get ⟨r, h.1⟩) s b
      some { nodes := g.nodes.set r q.1
           , sent := g.sent ++ outsToSent r q.2
           , recvd := g.recvd ++ [(r, s, b)] }
    else none

/-- Run a sequence of global events; fails if any event is not enabled. -/
def grun (n f : Nat) (g : GState) : List GEv → Option GState
  | [] => some g
  | ev :: rest =>
    match gstep n f g ev with
    | none => none
    | some g2 => grun n f g2 rest

/-- Initial global state of a 3-process system. -/
def gInit3 : GState :=
  { nodes := [initBracha, initBracha, initBracha], sent := [], recvd := [] }

def sendBlob (o : Nat) (c : String) : Blob := Blob.bracha (BrachaMessage.mk o c MsgType.send)

def echoBlob (o : Nat) (c : String) : Blob := Blob.bracha (BrachaMessage.mk o c MsgType.echo)

def readyBlob (o : Nat) (c : String) : Blob := Blob.bracha (BrachaMessage.mk o c MsgType.ready)

/-- An execution of the 3-process system (`f = 0`, so zero Byzantine
processes and `N = 3 ≥ 3f + 1`) in which process 0 — exactly as `on_start`
does with `NUM_BROADCASTS = 2` — brb-broadcasts `"Message-0"` and then
`"Message-1"`, and the SEND/ECHO/READY exchanges run far enough for
process 0 to deliver `(0, "Message-0")` and process 1 to deliver
`(0, "Message-1")`. -/
def c6Trace : List GEv :=
  [ GEv.bcast 0 "Message-0"
  , GEv.recv 0 0 (sendBlob 0 "Message-0")
  , GEv.recv 1 0 (sendBlob 0 "Message-0")
  , GEv.recv 0 0 (echoBlob 0 "Message-0")
  , GEv.recv 0 1 (echoBlob 0 "Message-0")
  , GEv.recv 0 0 (readyBlob 0 "Message-0")
  , GEv.bcast 0 "Message-1"
  , GEv.recv 0 0 (sendBlob 0 "Message-1")
  , GEv.recv 1 0 (sendBlob 0 "Message-1")
  , GEv.recv 1 1 (echoBlob 0 "Message-1")
  , GEv.recv 1 0 (echoBlob 0 "Message-1")
  , GEv.recv 1 1 (readyBlob 0 "Message-1")
  ]

/-- Process 0 has brb-delivered `(0, "Message-0")` and process 1 has
brb-delivered `(0, "Message-1")`. -/
def c6Violation (g : GState) : Bool :=
  decide (((0, "Message-0") : BKey) ∈ (g.nodes.getD 0 initBracha).brachaDelivered) &&
  decide (((0, "Message-1") : BKey) ∈ (g.nodes.getD 1 initBracha).brachaDelivered)

/-- C6 fails on the code: in an execution with zero Byzantine processes
(`f = 0`, `N = 3 ≥ 3f + 1`) where the correct origin 0 broadcasts its two
startup messages, the correct processes 0 and 1 brb-deliver the different
contents `"Message-0" ≠ "Message-1"` for the same origin 0 — the protocol
keys every phase by `(origin, content)`, so distinct contents from one
origin are independent instances and all of them are delivered. -/
theorem brb_consistency_counterexample :
    (Option.map c6Violation (grun 3 0 gInit3 c6Trace)).getD false = true ∧
    "Message-0" ≠ "Message-1" := by
  constructor
  · decide
  · decide

end DistAlg
